import Mathlib

/-!
Verification development for the chunked Figma tree-traversal engine
(`src/client.ts`: `StreamingNodeProcessor` and `ChunkedFigmaClient.streamNodes`
/ `getFileInfoChunked`).

The TypeScript source is embedded shallowly:

* `SceneNode` models the design-file node values traversed by the engine.
  The TypeScript type lives in `types.ts`, which is not part of the
  repository snapshot, so the node shape is modelled from the spec's data
  model (§3): required `id` and `type`, optional `name` / `visible`,
  container types carry an ordered child list, `TEXT` carries `characters`,
  `COMPONENT` / `INSTANCE` carry `componentId`.  `hasChildren` models the
  JavaScript `'children' in node` key-presence test (a node built without a
  `children` key has `hasChildren = false`; its `children` list is then
  ignored by every definition, mirroring the source which only reads
  `node.children` under the `'children' in node` guard).  `extras` models
  the remaining untyped properties of the JavaScript object as a list of
  key / already-serialized-JSON-value pairs, so that property exclusion and
  the fixed constant sub-objects produced by `summarizeNode` (default TEXT
  style, FRAME background, ...) are representable.
* Sizes are rationals: `Buffer.byteLength(JSON.stringify(node)) / 1024 / 1024`
  is exact in IEEE double arithmetic for any realistic byte count (division
  by a power of two), so `ℚ` is a faithful carrier.  The canonical JSON
  encoding (field order, escaping) is modelled from the spec (§4.1 step 4:
  "byte-length of a canonical JSON encoding"), the exact key order of the
  upstream JavaScript objects being unknowable without `types.ts`.
* Stateful code (`processedNodes`, `currentSize`) becomes explicit state
  passing over `Proc`; the `streamNodes` while-loop becomes the recursion
  `streamLoop`, whose defining equations `streamLoop_nil` / `streamLoop_cons`
  render the source loop line by line.
-/

/-- Modelled from the spec: one element of the design-file tree (the
TypeScript `SceneNode` of the missing `types.ts`).  Constructor arguments:
`id`, `ty` (JSON key `"type"`), `name`, `visible`, `hasChildren` (models the
`'children' in node` key-presence test), `children`, `characters`,
`componentId`, `extras` (remaining properties, as key / serialized-value
pairs). -/
inductive SceneNode where
  | mk (id : String) (ty : String) (name : Option String) (visible : Option Bool)
      (hasChildren : Bool) (children : List SceneNode)
      (characters : Option String) (componentId : Option String)
      (extras : List (String × String)) : SceneNode

def SceneNode.id : SceneNode → String
  | .mk i _ _ _ _ _ _ _ _ => i

def SceneNode.ty : SceneNode → String
  | .mk _ t _ _ _ _ _ _ _ => t

def SceneNode.name : SceneNode → Option String
  | .mk _ _ nm _ _ _ _ _ _ => nm

def SceneNode.visible : SceneNode → Option Bool
  | .mk _ _ _ v _ _ _ _ _ => v

def SceneNode.hasChildren : SceneNode → Bool
  | .mk _ _ _ _ hc _ _ _ _ => hc

def SceneNode.children : SceneNode → List SceneNode
  | .mk _ _ _ _ _ cs _ _ _ => cs

def SceneNode.characters : SceneNode → Option String
  | .mk _ _ _ _ _ _ ch _ _ => ch

def SceneNode.componentId : SceneNode → Option String
  | .mk _ _ _ _ _ _ _ cid _ => cid

def SceneNode.extras : SceneNode → List (String × String)
  | .mk _ _ _ _ _ _ _ _ ex => ex

/-- The child list actually visible to the engine: the source only reads
`node.children` under an `'children' in node` guard. -/
def childrenOf (n : SceneNode) : List SceneNode :=
  if n.hasChildren then n.children else []

/-- Modelled from the spec: the root container whose immediate children seed
the traversal (`DocumentNode` of the missing `types.ts`). -/
structure DocumentNode where
  children : List SceneNode

/-- JSON string escaping for the canonical encoding (quote and backslash;
the identifiers and names appearing in a design file need no more). -/
def jsonEscape (s : String) : String :=
  String.mk (s.data.foldr
    (fun c acc =>
      if c = '"' then '\\' :: '"' :: acc
      else if c = '\\' then '\\' :: '\\' :: acc
      else c :: acc) [])

def jsonStr (s : String) : String :=
  "\"" ++ jsonEscape s ++ "\""

mutual

/-- Canonical JSON encoding of a node (modelled from the spec, §4.1 step 4):
present keys in the fixed order `id`, `type`, `name`, `visible`, `children`,
`characters`, `componentId`, then the extra properties. -/
def serializeNode : SceneNode → String
  | .mk i t nm vis hc cs ch cid ex =>
    "\x7b\"id\":" ++ jsonStr i ++ ",\"type\":" ++ jsonStr t
    ++ (match nm with | none => "" | some v => ",\"name\":" ++ jsonStr v)
    ++ (match vis with
        | none => ""
        | some b => ",\"visible\":" ++ (if b then "true" else "false"))
    ++ (if hc then ",\"children\":[" ++ serializeSibs cs ++ "]" else "")
    ++ (match ch with | none => "" | some v => ",\"characters\":" ++ jsonStr v)
    ++ (match cid with | none => "" | some v => ",\"componentId\":" ++ jsonStr v)
    ++ (ex.foldl (fun acc kv => acc ++ ",\"" ++ jsonEscape kv.1 ++ "\":" ++ kv.2) "")
    ++ "\x7d"
termination_by structural n => n

def serializeSibs : List SceneNode → String
  | [] => ""
  | [n] => serializeNode n
  | n :: ns => serializeNode n ++ "," ++ serializeSibs ns
termination_by structural l => l

end

/-- Translation of `estimateNodeSize` (client.ts:25-27):
`Buffer.byteLength(JSON.stringify(node)) / 1024 / 1024` — size in MB. -/
def estimateNodeSize (node : SceneNode) : ℚ :=
  ((serializeNode node).utf8ByteSize : ℚ) / 1024 / 1024

/-- Translation of `ChunkConfig` (client.ts:4-12).  `summarizeNodes?: boolean` is read only
for truthiness, so `Bool` with `false` for absent; the numeric budgets are
rationals (see header). -/
structure ChunkConfig where
  pageSize : Nat
  maxMemoryMB : ℚ
  nodeTypes : Option (List String) := none
  maxDepth : Option Nat := none
  excludeProps : Option (List String) := none
  maxResponseSize : Option ℚ := none
  summarizeNodes : Bool := false

/-- The budget actually consulted by `shouldProcessNode` (client.ts:139) and
`hasReachedLimit` (client.ts:161): the JavaScript expression
`this.config.maxResponseSize || this.config.maxMemoryMB` — `maxResponseSize`
whenever it is present and truthy (nonzero), else `maxMemoryMB`. -/
def effectiveBudget (cfg : ChunkConfig) : ℚ :=
  match cfg.maxResponseSize with
  | some r => if r = 0 then cfg.maxMemoryMB else r
  | none => cfg.maxMemoryMB

/-- The mutable state of a `StreamingNodeProcessor` (client.ts:14-23): the
dedup set `processedNodes` (a JavaScript `Set`, insertion-ordered; elements
are only ever added after a negative membership test, so a duplicate-free
list is a faithful carrier) and the running size accumulator `currentSize`. -/
structure Proc where
  processedNodes : List String
  currentSize : ℚ
deriving DecidableEq

/-- A freshly constructed `StreamingNodeProcessor` (client.ts:19-23). -/
def freshProc : Proc := ⟨[], 0⟩

/-- Translation of `shouldProcessNode` (client.ts:133-144), short-circuiting in source
order: dedup, type allow-list, depth bound, then the pre-admission size
check against the effective budget. -/
def shouldProcessNode (cfg : ChunkConfig) (st : Proc) (node : SceneNode)
    (depth : Nat) : Bool :=
  if st.processedNodes.contains node.id then false
  else if (match cfg.nodeTypes with
           | some ts => !ts.contains node.ty
           | none => false) then false
  else if (match cfg.maxDepth with
           | some d => decide (depth > d)
           | none => false) then false
  else if st.currentSize + estimateNodeSize node > effectiveBudget cfg then false
  else true

/-- One `delete (filteredNode as any)[prop]` step of
`filterNodeProperties` (client.ts:33-37): `id` and `type` are preserved;
deleting an absent key is a no-op. -/
def deleteProp (n : SceneNode) (prop : String) : SceneNode :=
  if prop = "id" ∨ prop = "type" then n
  else match n with
  | .mk i t nm vis hc cs ch cid ex =>
    if prop = "name" then .mk i t none vis hc cs ch cid ex
    else if prop = "visible" then .mk i t nm none hc cs ch cid ex
    else if prop = "children" then .mk i t nm vis false [] ch cid ex
    else if prop = "characters" then .mk i t nm vis hc cs none cid ex
    else if prop = "componentId" then .mk i t nm vis hc cs ch none ex
    else .mk i t nm vis hc cs ch cid (ex.filter (fun kv => kv.1 ≠ prop))

/-- Translation of `filterNodeProperties` (client.ts:29-39): unchanged when no (or an
empty) exclusion list is configured, else every listed property except
`id`/`type` is deleted. -/
def filterNodeProperties (cfg : ChunkConfig) (node : SceneNode) : SceneNode :=
  match cfg.excludeProps with
  | none => node
  | some [] => node
  | some props => props.foldl deleteProp node

/-- The serialized fixed default TEXT style produced by `summarizeNode`
(client.ts:94-101). -/
def defaultStyleJson : String :=
  "\x7b\"fontFamily\":\"Inter\",\"fontWeight\":400,\"fontSize\":16,\"textAlignHorizontal\":\"LEFT\",\"letterSpacing\":0,\"lineHeightUnit\":\"PIXELS\"\x7d"

/-- Translation of `summarizeNode` (client.ts:41-131): a minimal type-correct
representative built from `base = {id, name: node.name || '', visible:
node.visible ?? true, type}` plus the type-mandated fields; container
summaries always carry a `children` key (`'children' in node ?
node.children : []`). -/
def summarizeNode (node : SceneNode) : SceneNode :=
  if node.ty = "FRAME" then
    .mk node.id node.ty (some (node.name.getD "")) (some (node.visible.getD true))
      true (childrenOf node) none none [("background", "[]")]
  else if node.ty = "GROUP" then
    .mk node.id node.ty (some (node.name.getD "")) (some (node.visible.getD true))
      true (childrenOf node) none none []
  else if node.ty = "VECTOR" then
    .mk node.id node.ty (some (node.name.getD "")) (some (node.visible.getD true))
      false [] none none []
  else if node.ty = "BOOLEAN_OPERATION" then
    .mk node.id node.ty (some (node.name.getD "")) (some (node.visible.getD true))
      true (childrenOf node) none none [("booleanOperation", "\"UNION\"")]
  else if node.ty = "STAR" then
    .mk node.id node.ty (some (node.name.getD "")) (some (node.visible.getD true))
      false [] none none [("pointCount", "5"), ("innerRadius", "0.5")]
  else if node.ty = "LINE" then
    .mk node.id node.ty (some (node.name.getD "")) (some (node.visible.getD true))
      false [] none none []
  else if node.ty = "TEXT" then
    .mk node.id node.ty (some (node.name.getD "")) (some (node.visible.getD true))
      false [] (some (node.characters.getD "")) none [("style", defaultStyleJson)]
  else if node.ty = "COMPONENT" then
    .mk node.id node.ty (some (node.name.getD "")) (some (node.visible.getD true))
      true (childrenOf node) none (some (node.componentId.getD "")) []
  else if node.ty = "INSTANCE" then
    .mk node.id node.ty (some (node.name.getD "")) (some (node.visible.getD true))
      true (childrenOf node) none (some (node.componentId.getD "")) []
  else if node.ty = "CANVAS" then
    .mk node.id node.ty (some (node.name.getD "")) (some (node.visible.getD true))
      true (childrenOf node) none none
      [("backgroundColor", "\x7b\"r\":1,\"g\":1,\"b\":1,\"a\":1\x7d")]
  else
    .mk node.id node.ty (some (node.name.getD "")) (some (node.visible.getD true))
      true (childrenOf node) none none []

/-- The transform applied to an admitted node by `processNode`
(client.ts:150-154): property exclusion, then optional summarization. -/
def transformNode (cfg : ChunkConfig) (node : SceneNode) : SceneNode :=
  let p := filterNodeProperties cfg node
  if cfg.summarizeNodes then summarizeNode p else p

/-- Translation of `processNode` (client.ts:146-158): on admission, mark the id as seen,
transform, charge the transformed node's estimated size to the accumulator,
and return the transformed node; otherwise return `null` and leave the
state untouched. -/
def processNode (cfg : ChunkConfig) (st : Proc) (node : SceneNode)
    (depth : Nat) : Option SceneNode × Proc :=
  if shouldProcessNode cfg st node depth then
    let p := transformNode cfg node
    (some p,
     ⟨st.processedNodes ++ [node.id], st.currentSize + estimateNodeSize p⟩)
  else (none, st)

/-- Translation of `hasReachedLimit` (client.ts:160-162). -/
def hasReachedLimit (cfg : ChunkConfig) (st : Proc) : Bool :=
  decide (st.currentSize ≥ effectiveBudget cfg)

/-- JavaScript `parseInt(s, 10)` restricted to what `streamNodes` feeds it:
leading whitespace is skipped, an optional sign is read, then the longest
leading run of decimal digits gives the value; `none` models `NaN` (no
digits). -/
def parseIntDec (s : String) : Option Int :=
  let cs := s.data.dropWhile (fun c => c = ' ' ∨ c = '\t' ∨ c = '\n' ∨ c = '\r')
  let digitsVal : List Char → Option Nat := fun l =>
    let ds := l.takeWhile Char.isDigit
    if ds.isEmpty then none
    else some (ds.foldl (fun a c => a * 10 + (c.toNat - '0'.toNat)) 0)
  match cs with
  | '-' :: rest => (digitsVal rest).map (fun n => -(n : Int))
  | '+' :: rest => (digitsVal rest).map (fun n => (n : Int))
  | _ => (digitsVal cs).map (fun n => (n : Int))

/-- A queue entry of `streamNodes` (client.ts:211): a node tagged with its
depth. -/
abbrev QEntry := SceneNode × Nat

/-- The queue entries pushed for the children of a popped node
(client.ts:228-233). -/
def childEntries (n : SceneNode) (depth : Nat) : List QEntry :=
  (childrenOf n).map (fun c => (c, depth + 1))

mutual

/-- Subtree node count (drives the fuel of `streamLoopGo`). -/
def nodeWeight : SceneNode → Nat
  | .mk _ _ _ _ _ cs _ _ _ => 1 + listWeight cs
termination_by structural n => n

def listWeight : List SceneNode → Nat
  | [] => 0
  | n :: ns => nodeWeight n + listWeight ns
termination_by structural l => l

end

/-- Appending an admitted node to the page (client.ts:224-226):
`if (processedNode) result.push(processedNode)`. -/
def pushRes (res : List SceneNode) : Option SceneNode → List SceneNode
  | some pn => res ++ [pn]
  | none => res

/-- Total subtree weight of a queue (an upper bound on the number of loop
iterations, used as fuel for `streamLoopGo`). -/
def queueWeight (q : List QEntry) : Nat :=
  listWeight (q.map Prod.fst)

/-- The main loop of `streamNodes` (client.ts:220-238), written with an
explicit fuel argument so the recursion is structural (the fuel never runs
out when it starts above `queueWeight`; see `streamLoop_cons` for the exact
fuel-free unfolding, which is the faithful rendering of the source loop):
`while (queue.length > 0 && result.length < pageSize)` pop the front entry,
run it through `processNode` (appending on admission), push the popped
node's children onto the *front* of the queue, and break if
`hasReachedLimit`.  Returns the result page, the processor state and the
remaining queue. -/
def streamLoopGo (cfg : ChunkConfig) :
    Nat → List QEntry → List SceneNode → Proc → List SceneNode × Proc × List QEntry
  | _, [], res, st => (res, st, [])
  | 0, q, res, st => (res, st, q)
  | fuel + 1, (n, d) :: rest, res, st =>
    if res.length < cfg.pageSize then
      if hasReachedLimit cfg (processNode cfg st n d).2 then
        (pushRes res (processNode cfg st n d).1, (processNode cfg st n d).2,
         childEntries n d ++ rest)
      else
        streamLoopGo cfg fuel (childEntries n d ++ rest)
          (pushRes res (processNode cfg st n d).1) (processNode cfg st n d).2
    else (res, st, (n, d) :: rest)

/-- The `streamNodes` main loop (client.ts:220-238); `streamLoop_nil` and
`streamLoop_cons` below are its defining equations, matching the source
loop line by line. -/
def streamLoop (cfg : ChunkConfig) (q : List QEntry) (res : List SceneNode)
    (st : Proc) : List SceneNode × Proc × List QEntry :=
  streamLoopGo cfg (queueWeight q + 1) q res st

/-- The cursor fast-forward of `streamNodes` (client.ts:212-218):
`currentIndex = cursor ? parseInt(cursor, 10) : 0` (an empty cursor string
is falsy, hence 0), then the skip loop
`while (currentIndex > 0 && queue.length > 0) queue.shift()` removes
`min(currentIndex, queue.length)` front entries — and removes none when
`parseInt` returned `NaN`, since `NaN > 0` is false, or when the parsed
value is negative. -/
def applyCursorSkip (cursor : Option String) (queue : List QEntry) : List QEntry :=
  let ci : Option Int := match cursor with
    | some c => if c = "" then some 0 else parseIntDec c
    | none => some 0
  match ci with
  | some k => queue.drop k.toNat
  | none => queue

/-- Translation of `ChunkResult` (client.ts:173-178). -/
structure ChunkResult where
  nodes : List SceneNode
  memoryUsage : ℚ
  nextCursor : Option String
  hasMore : Bool

/-- Translation of `streamNodes` (client.ts:206-246): seed the queue from the document's
children at depth 0, fast-forward past the cursor, run the main loop, and
assemble the `ChunkResult` (`nextCursor` is the processed-count when the
queue is non-empty, `hasMore` iff the queue is non-empty); the final
processor state is returned alongside because it persists on the client
across calls. -/
def streamNodes (cfg : ChunkConfig) (st : Proc) (document : DocumentNode)
    (cursor : Option String) : ChunkResult × Proc :=
  let queue1 := applyCursorSkip cursor (document.children.map (fun n => (n, 0)))
  let out := streamLoop cfg queue1 [] st
  ({ nodes := out.1,
     memoryUsage := out.2.1.currentSize,
     nextCursor := if 0 < out.2.2.length
       then some (toString out.2.1.processedNodes.length) else none,
     hasMore := decide (0 < out.2.2.length) },
   out.2.1)

/-- A partial `ChunkConfig` as accepted by `getFileInfoChunked`
(`Partial<ChunkConfig>`); `none` models an absent key (not spread). -/
structure PartialChunkConfig where
  pageSize : Option Nat := none
  maxMemoryMB : Option ℚ := none
  nodeTypes : Option (List String) := none
  maxDepth : Option Nat := none
  excludeProps : Option (List String) := none
  maxResponseSize : Option ℚ := none
  summarizeNodes : Option Bool := none

/-- The spread `{...this.config, ...config}` (client.ts:256-259) for a
partial override without explicitly-`undefined` keys. -/
def mergeConfig (c : ChunkConfig) (o : PartialChunkConfig) : ChunkConfig where
  pageSize := o.pageSize.getD c.pageSize
  maxMemoryMB := o.maxMemoryMB.getD c.maxMemoryMB
  nodeTypes := match o.nodeTypes with | some v => some v | none => c.nodeTypes
  maxDepth := match o.maxDepth with | some v => some v | none => c.maxDepth
  excludeProps := match o.excludeProps with | some v => some v | none => c.excludeProps
  maxResponseSize := match o.maxResponseSize with | some v => some v | none => c.maxResponseSize
  summarizeNodes := o.summarizeNodes.getD c.summarizeNodes

/-- The per-client state of `ChunkedFigmaClient` relevant to traversal:
its config and its current `StreamingNodeProcessor`. -/
structure ClientState where
  config : ChunkConfig
  proc : Proc

/-- Translation of `getFileInfoChunked` (client.ts:248-279) with the HTTP fetch abstracted
to the already-fetched `document` (the fetch is the external collaborator;
spec §6): if a config override is passed (any object, even empty), the
config is spread-merged and the node processor is *recreated* (fresh dedup
set and accumulator, client.ts:255-262); then the document is streamed from
the cursor. -/
def getFileInfoChunkedModel (cs : ClientState) (document : DocumentNode)
    (cursor : Option String) (override : Option PartialChunkConfig) :
    ChunkResult × ClientState :=
  let cs' := match override with
    | none => cs
    | some o => ⟨mergeConfig cs.config o, freshProc⟩
  let out := streamNodes cs'.config cs'.proc document cursor
  (out.1, ⟨cs'.config, out.2⟩)

mutual

/-- Pre-order, depth-first enumeration of a single subtree, siblings in
document order (the reference order of spec §4.2). -/
def preorderN : SceneNode → List SceneNode
  | .mk i t nm vis hc cs ch cid ex =>
    .mk i t nm vis hc cs ch cid ex :: (if hc then preorderL cs else [])
termination_by structural n => n

/-- Pre-order, depth-first enumeration of a forest. -/
def preorderL : List SceneNode → List SceneNode
  | [] => []
  | n :: ns => preorderN n ++ preorderL ns
termination_by structural l => l

end

/-- Per-node budget weight used to express "budget large enough to admit
every node": the raw size consulted by the admission check plus the
transformed size charged to the accumulator. -/
def sizeBudgetL (cfg : ChunkConfig) (l : List SceneNode) : ℚ :=
  (l.map (fun n => estimateNodeSize n + estimateNodeSize (transformNode cfg n))).sum

def c1node (i : String) : SceneNode :=
  .mk i "FRAME" (some "Frame") none true [] none none []

def c1doc : DocumentNode := ⟨[c1node "1:1", c1node "1:2", c1node "1:3"]⟩

def c1cfg : ChunkConfig := { pageSize := 1, maxMemoryMB := 512 }

def c2cfg : ChunkConfig := { pageSize := 10, maxMemoryMB := 512 }

def c2node : SceneNode := .mk "2:1" "TEXT" none none false [] (some "hi") none []

def c3child : SceneNode := .mk "3:2" "TEXT" none none false [] (some "x") none []

def c3root : SceneNode := .mk "3:1" "GROUP" none none true [c3child] none none []

def c3doc : DocumentNode := ⟨[c3root]⟩

def c3cfg : ChunkConfig := { pageSize := 10, maxMemoryMB := 1000000 }

def c4frame (i : String) : SceneNode :=
  .mk i "FRAME" (some "Frame") none true [] none none []

def c4doc : DocumentNode := ⟨[c4frame "1:1", c4frame "1:2", c4frame "1:3"]⟩

def c4cfg : ChunkConfig :=
  { pageSize := 2, maxMemoryMB := 512, maxResponseSize := some 1000000 }

def c4call1 : ChunkResult × Proc := streamNodes c4cfg freshProc c4doc none

def c4call2 : ChunkResult × Proc := streamNodes c4cfg c4call1.2 c4doc (some "2")

def c5node : SceneNode :=
  .mk "5:1" "TEXT" (some "big") none false [] (some "hello world") none []

def c5cfg : ChunkConfig :=
  { pageSize := 100, maxMemoryMB := 512, maxResponseSize := some (1 / 1048576) }

def c5doc : DocumentNode := ⟨[c5node]⟩

def c6node : SceneNode := .mk "6:1" "TEXT" none none false [] (some "t") none []

def c6doc : DocumentNode := ⟨[c6node]⟩

def c6cfg : ChunkConfig := { pageSize := 100, maxMemoryMB := 512 }

def c7cfg : ChunkConfig :=
  { pageSize := 100, maxMemoryMB := 1 / 1048576, maxResponseSize := some 1 }

def c7node : SceneNode := .mk "7:1" "TEXT" none none false [] (some "hello") none []

def c8node : SceneNode := .mk "A1" "FRAME" none none true [] none none []

def c8doc : DocumentNode := ⟨[c8node]⟩

def c8cfg : ChunkConfig := { pageSize := 10, maxMemoryMB := 512 }

def c8cs0 : ClientState := ⟨c8cfg, freshProc⟩

def c8call1 : ChunkResult × ClientState :=
  getFileInfoChunkedModel c8cs0 c8doc none none

def c8override : PartialChunkConfig := { pageSize := some 5 }

def c8call2 : ChunkResult × ClientState :=
  getFileInfoChunkedModel c8call1.2 c8doc none (some c8override)

def c9doc : DocumentNode :=
  ⟨[.mk "9:1" "FRAME" none none true [.mk "9:2" "TEXT" none none false [] none none []] none none [],
    .mk "9:3" "FRAME" none none true [] none none []]⟩

def c9cfg : ChunkConfig := { pageSize := 10, maxMemoryMB := 512 }

def c10text : SceneNode := .mk "T1" "TEXT" none none false [] (some "x") none []

def c10grp : SceneNode := .mk "G1" "GROUP" none none true [c10text] none none []

def c10doc : DocumentNode := ⟨[c10grp]⟩

def c10cfg : ChunkConfig :=
  { pageSize := 10, maxMemoryMB := 512, nodeTypes := some ["TEXT"] }

theorem estimateNodeSize_nonneg (n : SceneNode) : 0 ≤ estimateNodeSize n := by
  unfold estimateNodeSize
  positivity

theorem listWeight_append (a b : List SceneNode) :
    listWeight (a ++ b) = listWeight a + listWeight b := by
  induction a with
  | nil => simp [listWeight]
  | cons x xs ih => simp [listWeight, ih]; omega

theorem listWeight_childrenOf_lt (n : SceneNode) :
    listWeight (childrenOf n) < nodeWeight n := by
  unfold childrenOf
  cases n with
  | mk i t nm vis hc cs ch cid ex =>
    cases hc <;> simp [nodeWeight, listWeight, SceneNode.hasChildren, SceneNode.children]

theorem nodeWeight_pos (n : SceneNode) : 0 < nodeWeight n := by
  cases n with
  | mk i t nm vis hc cs ch cid ex => simp [nodeWeight]

theorem queueWeight_cons (n : SceneNode) (d : Nat) (rest : List QEntry) :
    queueWeight ((n, d) :: rest) = nodeWeight n + queueWeight rest := by
  simp [queueWeight, listWeight]

theorem map_fst_childEntries (n : SceneNode) (d : Nat) :
    (childEntries n d).map Prod.fst = childrenOf n := by
  unfold childEntries
  induction childrenOf n with
  | nil => rfl
  | cons x xs ih => simp_all

theorem queueWeight_step (n : SceneNode) (d : Nat) (rest : List QEntry) :
    queueWeight (childEntries n d ++ rest) < queueWeight ((n, d) :: rest) := by
  have h1 : queueWeight (childEntries n d ++ rest)
      = listWeight (childrenOf n) + queueWeight rest := by
    simp [queueWeight, listWeight_append, map_fst_childEntries]
  have h2 := listWeight_childrenOf_lt n
  rw [h1, queueWeight_cons]
  omega

theorem streamLoopGo_fuel (cfg : ChunkConfig) :
    ∀ fuel q res st, queueWeight q < fuel →
      streamLoopGo cfg fuel q res st = streamLoop cfg q res st := by
  intro fuel
  induction fuel using Nat.strong_induction_on with
  | _ fuel ih =>
    intro q res st hq
    match q with
    | [] =>
      unfold streamLoop
      cases fuel <;> rfl
    | (n, d) :: rest =>
      have hw := queueWeight_step n d rest
      have hpos : 0 < queueWeight ((n, d) :: rest) := by
        have := nodeWeight_pos n
        rw [queueWeight_cons]
        omega
      match fuel, hq with
      | fuel + 1, hq =>
        unfold streamLoop
        simp only [streamLoopGo]
        by_cases hpage : res.length < cfg.pageSize
        · simp only [hpage, if_true]
          by_cases hlim : hasReachedLimit cfg (processNode cfg st n d).2
          · simp only [hlim, if_true]
          · simp only [hlim, if_false]
            rw [ih fuel (by omega) _ _ _ (by omega),
                ih (queueWeight ((n, d) :: rest)) (by omega) _ _ _ (by omega)]
        · simp only [hpage, if_false]

theorem streamLoop_nil (cfg : ChunkConfig) (res : List SceneNode) (st : Proc) :
    streamLoop cfg [] res st = (res, st, []) := rfl

/-- One iteration of the source loop (client.ts:220-238). -/
theorem streamLoop_cons (cfg : ChunkConfig) (n : SceneNode) (d : Nat)
    (rest : List QEntry) (res : List SceneNode) (st : Proc) :
    streamLoop cfg ((n, d) :: rest) res st =
      if res.length < cfg.pageSize then
        if hasReachedLimit cfg (processNode cfg st n d).2 then
          (pushRes res (processNode cfg st n d).1, (processNode cfg st n d).2,
           childEntries n d ++ rest)
        else
          streamLoop cfg (childEntries n d ++ rest)
            (pushRes res (processNode cfg st n d).1) (processNode cfg st n d).2
      else (res, st, (n, d) :: rest) := by
  have hw := queueWeight_step n d rest
  conv_lhs => rw [streamLoop]
  simp only [streamLoopGo]
  by_cases hpage : res.length < cfg.pageSize
  · simp only [hpage, if_true]
    by_cases hlim : hasReachedLimit cfg (processNode cfg st n d).2
    · simp only [hlim, if_true]
    · simp only [hlim, if_false]
      rw [streamLoopGo_fuel cfg _ _ _ _ (by omega)]
  · simp only [hpage, if_false]

theorem preorderN_eq (n : SceneNode) :
    preorderN n = n :: preorderL (childrenOf n) := by
  cases n with
  | mk i t nm vis hc cs ch cid ex =>
    cases hc <;>
      simp [preorderN, preorderL, childrenOf, SceneNode.hasChildren, SceneNode.children]

theorem preorderL_cons (n : SceneNode) (ns : List SceneNode) :
    preorderL (n :: ns) = n :: (preorderL (childrenOf n) ++ preorderL ns) := by
  simp [preorderL, preorderN_eq]

theorem preorderL_append (a b : List SceneNode) :
    preorderL (a ++ b) = preorderL a ++ preorderL b := by
  induction a with
  | nil => simp [preorderL]
  | cons x xs ih => simp only [List.cons_append, preorderL, List.append_eq, ih, List.append_assoc]

theorem contains_iff (l : List String) (a : String) :
    l.contains a = true ↔ a ∈ l :=
  List.elem_iff

theorem contains_eq_false (l : List String) (a : String) (h : a ∉ l) :
    l.contains a = false := by
  rw [← Bool.not_eq_true, contains_iff]
  exact h

theorem processNode_of_should (cfg : ChunkConfig) (st : Proc) (n : SceneNode)
    (d : Nat) (h : shouldProcessNode cfg st n d = true) :
    processNode cfg st n d =
      (some (transformNode cfg n),
       ⟨st.processedNodes ++ [n.id],
        st.currentSize + estimateNodeSize (transformNode cfg n)⟩) := by
  unfold processNode
  rw [h]
  rfl

theorem processNode_of_not (cfg : ChunkConfig) (st : Proc) (n : SceneNode)
    (d : Nat) (h : shouldProcessNode cfg st n d = false) :
    processNode cfg st n d = (none, st) := by
  unfold processNode
  rw [h]
  rfl

theorem processNode_none_eq (cfg : ChunkConfig) (st : Proc) (n : SceneNode)
    (d : Nat) (h : (processNode cfg st n d).1 = none) :
    processNode cfg st n d = (none, st) := by
  by_cases hs : shouldProcessNode cfg st n d
  · rw [processNode_of_should cfg st n d hs] at h
    cases h
  · exact processNode_of_not cfg st n d (by simpa using hs)

theorem shouldProcess_size_le (cfg : ChunkConfig) (st : Proc) (n : SceneNode)
    (d : Nat) (h : shouldProcessNode cfg st n d = true) :
    st.currentSize + estimateNodeSize n ≤ effectiveBudget cfg := by
  unfold shouldProcessNode at h
  split_ifs at h with h1 h2 h3 h4
  exact le_of_not_lt h4

theorem shouldProcess_not_mem (cfg : ChunkConfig) (st : Proc) (n : SceneNode)
    (d : Nat) (h : shouldProcessNode cfg st n d = true) :
    n.id ∉ st.processedNodes := by
  intro hmem
  unfold shouldProcessNode at h
  rw [if_pos ((contains_iff _ _).2 hmem)] at h
  exact Bool.false_ne_true h

theorem shouldProcess_false_of_mem (cfg : ChunkConfig) (st : Proc)
    (n : SceneNode) (d : Nat) (h : n.id ∈ st.processedNodes) :
    shouldProcessNode cfg st n d = false := by
  unfold shouldProcessNode
  rw [if_pos ((contains_iff _ _).2 h)]

theorem shouldProcess_false_of_over (cfg : ChunkConfig) (st : Proc)
    (n : SceneNode) (d : Nat)
    (h : effectiveBudget cfg < st.currentSize + estimateNodeSize n) :
    shouldProcessNode cfg st n d = false := by
  unfold shouldProcessNode
  split_ifs <;> rfl

theorem deleteProp_id (n : SceneNode) (prop : String) :
    (deleteProp n prop).id = n.id := by
  cases n with
  | mk i t nm vis hc cs ch cid ex =>
    unfold deleteProp
    split_ifs <;> rfl

theorem foldl_deleteProp_id (props : List String) (n : SceneNode) :
    (props.foldl deleteProp n).id = n.id := by
  induction props generalizing n with
  | nil => rfl
  | cons p ps ih => exact Eq.trans (ih (deleteProp n p)) (deleteProp_id n p)

theorem filterNodeProperties_id (cfg : ChunkConfig) (n : SceneNode) :
    (filterNodeProperties cfg n).id = n.id := by
  unfold filterNodeProperties
  match cfg.excludeProps with
  | none => rfl
  | some [] => rfl
  | some (p :: ps) => exact foldl_deleteProp_id (p :: ps) n

set_option maxHeartbeats 2000000 in
theorem summarizeNode_id (n : SceneNode) : (summarizeNode n).id = n.id := by
  unfold summarizeNode
  split_ifs <;> rfl

theorem transformNode_id (cfg : ChunkConfig) (n : SceneNode) :
    (transformNode cfg n).id = n.id := by
  unfold transformNode
  by_cases h : cfg.summarizeNodes <;>
    simp [h, summarizeNode_id, filterNodeProperties_id]

theorem pushRes_exists (res : List SceneNode) (o : Option SceneNode) :
    ∃ t, pushRes res o = res ++ t := by
  cases o with
  | none => exact ⟨[], by simp [pushRes]⟩
  | some pn => exact ⟨[pn], rfl⟩

theorem streamNodes_nodes_eq (cfg : ChunkConfig) (st : Proc)
    (doc : DocumentNode) (cur : Option String) :
    (streamNodes cfg st doc cur).1.nodes =
      (streamLoop cfg (applyCursorSkip cur (doc.children.map (fun n => (n, 0)))) [] st).1 :=
  rfl

theorem streamNodes_proc_eq (cfg : ChunkConfig) (st : Proc)
    (doc : DocumentNode) (cur : Option String) :
    (streamNodes cfg st doc cur).2 =
      (streamLoop cfg (applyCursorSkip cur (doc.children.map (fun n => (n, 0)))) [] st).2.1 :=
  rfl

theorem pushRes_length (res : List SceneNode) (o : Option SceneNode) :
    (pushRes res o).length ≤ res.length + 1 := by
  cases o <;> simp [pushRes]

theorem streamLoop_mono (cfg : ChunkConfig) (q : List QEntry)
    (res : List SceneNode) (st : Proc) :
    ∃ t, (streamLoop cfg q res st).1 = res ++ t := by
  suffices H : ∀ w q res st, queueWeight q ≤ w →
      ∃ t, (streamLoop cfg q res st).1 = res ++ t from
    H (queueWeight q) q res st le_rfl
  intro w
  induction w using Nat.strong_induction_on with
  | _ w ih =>
    intro q res st hw
    match q with
    | [] => exact ⟨[], by rw [streamLoop_nil]; simp⟩
    | (n, d) :: rest =>
      rw [streamLoop_cons]
      by_cases hpage : res.length < cfg.pageSize
      · rw [if_pos hpage]
        by_cases hlim : hasReachedLimit cfg (processNode cfg st n d).2 = true
        · rw [if_pos hlim]
          exact pushRes_exists res (processNode cfg st n d).1
        · rw [if_neg hlim]
          have hlt : queueWeight (childEntries n d ++ rest) < w :=
            lt_of_lt_of_le (queueWeight_step n d rest) hw
          obtain ⟨s, hs⟩ := pushRes_exists res (processNode cfg st n d).1
          obtain ⟨t, ht⟩ := ih _ hlt (childEntries n d ++ rest)
            (pushRes res (processNode cfg st n d).1) (processNode cfg st n d).2 le_rfl
          exact ⟨s ++ t, by rw [ht, hs, List.append_assoc]⟩
      · rw [if_neg hpage]
        exact ⟨[], by simp⟩

theorem streamLoop_length_le (cfg : ChunkConfig) (q : List QEntry)
    (res : List SceneNode) (st : Proc) (hres : res.length ≤ cfg.pageSize) :
    (streamLoop cfg q res st).1.length ≤ cfg.pageSize := by
  suffices H : ∀ w q res st, queueWeight q ≤ w → res.length ≤ cfg.pageSize →
      (streamLoop cfg q res st).1.length ≤ cfg.pageSize from
    H (queueWeight q) q res st le_rfl hres
  intro w
  induction w using Nat.strong_induction_on with
  | _ w ih =>
    intro q res st hw hres
    match q with
    | [] => rw [streamLoop_nil]; exact hres
    | (n, d) :: rest =>
      rw [streamLoop_cons]
      by_cases hpage : res.length < cfg.pageSize
      · rw [if_pos hpage]
        have hlen : (pushRes res (processNode cfg st n d).1).length ≤ cfg.pageSize := by
          have := pushRes_length res (processNode cfg st n d).1
          omega
        by_cases hlim : hasReachedLimit cfg (processNode cfg st n d).2 = true
        · rw [if_pos hlim]
          exact hlen
        · rw [if_neg hlim]
          have hlt : queueWeight (childEntries n d ++ rest) < w :=
            lt_of_lt_of_le (queueWeight_step n d rest) hw
          exact ih _ hlt _ _ _ le_rfl hlen
      · rw [if_neg hpage]
        exact hres

theorem streamLoop_fresh (cfg : ChunkConfig) (q : List QEntry)
    (res : List SceneNode) (st : Proc) (pn : SceneNode)
    (hpn : pn ∈ (streamLoop cfg q res st).1) :
    pn ∈ res ∨ pn.id ∉ st.processedNodes := by
  suffices H : ∀ w q res st, queueWeight q ≤ w →
      ∀ pn, pn ∈ (streamLoop cfg q res st).1 →
        pn ∈ res ∨ pn.id ∉ st.processedNodes from
    H (queueWeight q) q res st le_rfl pn hpn
  intro w
  induction w using Nat.strong_induction_on with
  | _ w ih =>
    intro q res st hw pn hpn
    match q with
    | [] =>
      rw [streamLoop_nil] at hpn
      exact Or.inl hpn
    | (n, d) :: rest =>
      rw [streamLoop_cons] at hpn
      by_cases hpage : res.length < cfg.pageSize
      · rw [if_pos hpage] at hpn
        by_cases hs : shouldProcessNode cfg st n d = true
        · rw [processNode_of_should cfg st n d hs] at hpn
          have hnotmem := shouldProcess_not_mem cfg st n d hs
          by_cases hlim :
              hasReachedLimit cfg
                (⟨st.processedNodes ++ [n.id],
                  st.currentSize + estimateNodeSize (transformNode cfg n)⟩ : Proc) = true
          · rw [if_pos hlim] at hpn
            rcases List.mem_append.1 hpn with hin | hone
            · exact Or.inl hin
            · right
              rw [List.mem_singleton.1 hone, transformNode_id]
              exact hnotmem
          · rw [if_neg hlim] at hpn
            have hlt : queueWeight (childEntries n d ++ rest) < w :=
              lt_of_lt_of_le (queueWeight_step n d rest) hw
            rcases ih _ hlt _ _ _ le_rfl pn hpn with hin | hfresh
            · rcases List.mem_append.1 hin with hin' | hone
              · exact Or.inl hin'
              · right
                rw [List.mem_singleton.1 hone, transformNode_id]
                exact hnotmem
            · right
              intro hmem
              exact hfresh (List.mem_append_left _ hmem)
        · rw [processNode_of_not cfg st n d (by simpa using hs)] at hpn
          by_cases hlim : hasReachedLimit cfg st = true
          · rw [if_pos hlim] at hpn
            exact Or.inl hpn
          · rw [if_neg hlim] at hpn
            have hlt : queueWeight (childEntries n d ++ rest) < w :=
              lt_of_lt_of_le (queueWeight_step n d rest) hw
            exact ih _ hlt _ _ _ le_rfl pn hpn
      · rw [if_neg hpage] at hpn
        exact Or.inl hpn

theorem streamLoop_processed_mono (cfg : ChunkConfig) (q : List QEntry)
    (res : List SceneNode) (st : Proc) (i : String)
    (hi : i ∈ st.processedNodes) :
    i ∈ (streamLoop cfg q res st).2.1.processedNodes := by
  suffices H : ∀ w q res st, queueWeight q ≤ w →
      ∀ i, i ∈ st.processedNodes →
        i ∈ (streamLoop cfg q res st).2.1.processedNodes from
    H (queueWeight q) q res st le_rfl i hi
  intro w
  induction w using Nat.strong_induction_on with
  | _ w ih =>
    intro q res st hw i hi
    match q with
    | [] =>
      rw [streamLoop_nil]
      exact hi
    | (n, d) :: rest =>
      rw [streamLoop_cons]
      have hsub : i ∈ (processNode cfg st n d).2.processedNodes := by
        by_cases hs : shouldProcessNode cfg st n d = true
        · rw [processNode_of_should cfg st n d hs]
          exact List.mem_append_left _ hi
        · rw [processNode_of_not cfg st n d (by simpa using hs)]
          exact hi
      by_cases hpage : res.length < cfg.pageSize
      · rw [if_pos hpage]
        by_cases hlim : hasReachedLimit cfg (processNode cfg st n d).2 = true
        · rw [if_pos hlim]
          exact hsub
        · rw [if_neg hlim]
          have hlt : queueWeight (childEntries n d ++ rest) < w :=
            lt_of_lt_of_le (queueWeight_step n d rest) hw
          exact ih _ hlt _ _ _ le_rfl i hsub
      · rw [if_neg hpage]
        exact hi

theorem streamLoop_ids_processed (cfg : ChunkConfig) (q : List QEntry)
    (res : List SceneNode) (st : Proc) (pn : SceneNode)
    (hpn : pn ∈ (streamLoop cfg q res st).1) :
    pn ∈ res ∨ pn.id ∈ (streamLoop cfg q res st).2.1.processedNodes := by
  suffices H : ∀ w q res st, queueWeight q ≤ w →
      ∀ pn, pn ∈ (streamLoop cfg q res st).1 →
        pn ∈ res ∨ pn.id ∈ (streamLoop cfg q res st).2.1.processedNodes from
    H (queueWeight q) q res st le_rfl pn hpn
  intro w
  induction w using Nat.strong_induction_on with
  | _ w ih =>
    intro q res st hw pn hpn
    match q with
    | [] =>
      rw [streamLoop_nil] at hpn ⊢
      exact Or.inl hpn
    | (n, d) :: rest =>
      rw [streamLoop_cons] at hpn ⊢
      by_cases hpage : res.length < cfg.pageSize
      · rw [if_pos hpage] at hpn ⊢
        by_cases hs : shouldProcessNode cfg st n d = true
        · rw [processNode_of_should cfg st n d hs] at hpn ⊢
          by_cases hlim :
              hasReachedLimit cfg
                (⟨st.processedNodes ++ [n.id],
                  st.currentSize + estimateNodeSize (transformNode cfg n)⟩ : Proc) = true
          · rw [if_pos hlim] at hpn ⊢
            rcases List.mem_append.1 hpn with hin | hone
            · exact Or.inl hin
            · right
              rw [List.mem_singleton.1 hone, transformNode_id]
              exact List.mem_append_right _ (List.mem_singleton.2 rfl)
          · rw [if_neg hlim] at hpn ⊢
            have hlt : queueWeight (childEntries n d ++ rest) < w :=
              lt_of_lt_of_le (queueWeight_step n d rest) hw
            rcases ih _ hlt _ _ _ le_rfl pn hpn with hin | hproc
            · rcases List.mem_append.1 hin with hin' | hone
              · exact Or.inl hin'
              · right
                rw [List.mem_singleton.1 hone, transformNode_id]
                exact streamLoop_processed_mono cfg _ _ _ n.id
                  (List.mem_append_right _ (List.mem_singleton.2 rfl))
            · exact Or.inr hproc
        · rw [processNode_of_not cfg st n d (by simpa using hs)] at hpn ⊢
          by_cases hlim : hasReachedLimit cfg st = true
          · rw [if_pos hlim] at hpn ⊢
            exact Or.inl hpn
          · rw [if_neg hlim] at hpn ⊢
            have hlt : queueWeight (childEntries n d ++ rest) < w :=
              lt_of_lt_of_le (queueWeight_step n d rest) hw
            exact ih _ hlt _ _ _ le_rfl pn hpn
      · rw [if_neg hpage] at hpn ⊢
        exact Or.inl hpn

theorem sizeBudgetL_nonneg (cfg : ChunkConfig) (l : List SceneNode) :
    0 ≤ sizeBudgetL cfg l := by
  apply List.sum_nonneg
  intro x hx
  obtain ⟨n, _, rfl⟩ := List.mem_map.1 hx
  have h1 := estimateNodeSize_nonneg n
  have h2 := estimateNodeSize_nonneg (transformNode cfg n)
  linarith

theorem sizeBudgetL_cons (cfg : ChunkConfig) (n : SceneNode) (l : List SceneNode) :
    sizeBudgetL cfg (n :: l) =
      estimateNodeSize n + estimateNodeSize (transformNode cfg n) + sizeBudgetL cfg l := by
  simp [sizeBudgetL]

theorem map_fst_seed (l : List SceneNode) :
    (l.map (fun n => (n, (0 : Nat)))).map Prod.fst = l := by
  induction l with
  | nil => rfl
  | cons x xs ih => simp [ih]

theorem streamLoop_preorder (cfg : ChunkConfig) (hTy : cfg.nodeTypes = none)
    (hDep : cfg.maxDepth = none) :
    ∀ w q res st, queueWeight q ≤ w →
      ((preorderL (q.map Prod.fst)).map SceneNode.id).Nodup →
      (∀ m ∈ preorderL (q.map Prod.fst), m.id ∉ st.processedNodes) →
      res.length + (preorderL (q.map Prod.fst)).length ≤ cfg.pageSize →
      st.currentSize + sizeBudgetL cfg (preorderL (q.map Prod.fst)) < effectiveBudget cfg →
      streamLoop cfg q res st =
        (res ++ (preorderL (q.map Prod.fst)).map (transformNode cfg),
         ⟨st.processedNodes ++ (preorderL (q.map Prod.fst)).map SceneNode.id,
          st.currentSize + ((preorderL (q.map Prod.fst)).map
            (fun m => estimateNodeSize (transformNode cfg m))).sum⟩,
         []) := by
  intro w
  induction w using Nat.strong_induction_on with
  | _ w ih =>
    intro q res st hw hnd hfresh hpage hbud
    match q with
    | [] =>
      rw [streamLoop_nil]
      simp [preorderL]
    | (n, d) :: rest =>
      have hpre : preorderL (((n, d) :: rest).map Prod.fst) =
          n :: (preorderL (childrenOf n) ++ preorderL (rest.map Prod.fst)) := by
        rw [List.map_cons, preorderL_cons]
      rw [hpre] at hnd hfresh hpage hbud ⊢
      set tailPre := preorderL (childrenOf n) ++ preorderL (rest.map Prod.fst) with htail
      have hfresh_n : n.id ∉ st.processedNodes :=
        hfresh n (List.mem_cons_self n tailPre)
      have hestn := estimateNodeSize_nonneg n
      have hesttr := estimateNodeSize_nonneg (transformNode cfg n)
      have htb := sizeBudgetL_nonneg cfg tailPre
      have hbud' : st.currentSize +
          (estimateNodeSize n + estimateNodeSize (transformNode cfg n)
            + sizeBudgetL cfg tailPre) < effectiveBudget cfg := by
        rw [← sizeBudgetL_cons]
        exact hbud
      have h1 : st.currentSize + estimateNodeSize n < effectiveBudget cfg := by
        linarith
      have hshould : shouldProcessNode cfg st n d = true := by
        simp [shouldProcessNode, hTy, hDep, hfresh_n, lt_asymm h1]
      have hpage1 : res.length < cfg.pageSize := by
        rw [List.length_cons] at hpage
        omega
      have hlimlt : st.currentSize + estimateNodeSize (transformNode cfg n)
          < effectiveBudget cfg := by
        linarith
      rw [streamLoop_cons, if_pos hpage1, processNode_of_should cfg st n d hshould]
      have hlim : hasReachedLimit cfg
          (⟨st.processedNodes ++ [n.id],
            st.currentSize + estimateNodeSize (transformNode cfg n)⟩ : Proc) = false := by
        exact decide_eq_false (not_le.mpr hlimlt)
      rw [hlim]
      simp only [Bool.false_eq_true, if_false]
      have hqmap : ((childEntries n d ++ rest).map Prod.fst) =
          childrenOf n ++ rest.map Prod.fst := by
        rw [List.map_append, map_fst_childEntries]
      have hpre' : preorderL ((childEntries n d ++ rest).map Prod.fst) = tailPre := by
        rw [hqmap, preorderL_append]
      have hndtail : (tailPre.map SceneNode.id).Nodup := by
        rw [List.map_cons, List.nodup_cons] at hnd
        exact hnd.2
      have hhead : n.id ∉ tailPre.map SceneNode.id := by
        rw [List.map_cons, List.nodup_cons] at hnd
        exact hnd.1
      have hlt : queueWeight (childEntries n d ++ rest) < w :=
        lt_of_lt_of_le (queueWeight_step n d rest) hw
      have hrec := ih _ hlt (childEntries n d ++ rest)
        (pushRes res (some (transformNode cfg n)))
        (⟨st.processedNodes ++ [n.id],
          st.currentSize + estimateNodeSize (transformNode cfg n)⟩ : Proc)
        le_rfl
        (by rw [hpre']; exact hndtail)
        (by
          rw [hpre']
          intro m hm
          show m.id ∉ st.processedNodes ++ [n.id]
          rw [List.mem_append]
          push_neg
          refine ⟨hfresh m (List.mem_cons_of_mem n hm), ?_⟩
          intro hmem
          rw [List.mem_singleton] at hmem
          exact hhead (hmem ▸ List.mem_map_of_mem SceneNode.id hm))
        (by
          rw [hpre']
          simp only [pushRes, List.length_append, List.length_singleton]
          rw [List.length_cons] at hpage
          omega)
        (by
          rw [hpre']
          show st.currentSize + estimateNodeSize (transformNode cfg n)
            + sizeBudgetL cfg tailPre < effectiveBudget cfg
          linarith)
      rw [hpre'] at hrec
      rw [hrec]
      simp only [pushRes, List.append_assoc, List.singleton_append, List.map_cons,
        List.sum_cons, add_assoc]

/-- C1: for every call to the chunked traversal (`streamNodes`), with any
document, any cursor, and any configuration with `pageSize ≥ 1`, the
returned nodes list contains at most `config.pageSize` entries. -/
theorem claim1_page_bound (cfg : ChunkConfig) (st : Proc) (doc : DocumentNode)
    (cursor : Option String) (hps : 1 ≤ cfg.pageSize) :
    (streamNodes cfg st doc cursor).1.nodes.length ≤ cfg.pageSize := by
  rw [streamNodes_nodes_eq]
  exact streamLoop_length_le cfg _ [] st (by simp)

theorem claim1_page_bound_witness :
    1 ≤ c1cfg.pageSize ∧
      (streamNodes c1cfg freshProc c1doc none).1.nodes.length ≤ c1cfg.pageSize :=
  ⟨by decide, claim1_page_bound c1cfg freshProc c1doc none (by decide)⟩

/-- C2: the running size accumulator never knowingly exceeds the effective
budget at the moment a node is accepted — (i) a node is only admitted when
`currentSize` plus its estimated size is within the effective budget (the
check runs strictly before acceptance), (ii) a rejected node leaves the
processor state untouched (it is excluded from the result and charged
nothing), and (iii) the page only ever grows during the loop (an
already-accepted node is never retracted). -/
theorem claim2_budget_admission :
    (∀ (cfg : ChunkConfig) (st : Proc) (n : SceneNode) (d : Nat),
        (processNode cfg st n d).1.isSome = true →
          st.currentSize + estimateNodeSize n ≤ effectiveBudget cfg)
    ∧ (∀ (cfg : ChunkConfig) (st : Proc) (n : SceneNode) (d : Nat),
        (processNode cfg st n d).1 = none → (processNode cfg st n d).2 = st)
    ∧ (∀ (cfg : ChunkConfig) (q : List QEntry) (res : List SceneNode) (st : Proc),
        ∃ t, (streamLoop cfg q res st).1 = res ++ t) := by
  refine ⟨?_, ?_, ?_⟩
  · intro cfg st n d h
    by_cases hs : shouldProcessNode cfg st n d = true
    · exact shouldProcess_size_le cfg st n d hs
    · rw [processNode_of_not cfg st n d (by simpa using hs)] at h
      cases h
  · intro cfg st n d h
    rw [processNode_none_eq cfg st n d h]
  · intro cfg q res st
    exact streamLoop_mono cfg q res st

theorem claim2_budget_admission_witness :
    freshProc.currentSize + estimateNodeSize c2node ≤ effectiveBudget c2cfg :=
  claim2_budget_admission.1 c2cfg freshProc c2node 0 (by with_unfolding_all decide)

/-- C3: for every document, a cursor-less traversal on a fresh engine with
no type filter, no depth limit, and `pageSize` and budget large enough to
admit every node returns the nodes of the tree in pre-order, depth-first
order with siblings in document order (each node transformed by the
configured property-exclusion/summarization, which preserves ids). -/
theorem claim3_preorder_traversal (cfg : ChunkConfig) (doc : DocumentNode)
    (hTy : cfg.nodeTypes = none) (hDep : cfg.maxDepth = none)
    (hNodup : ((preorderL doc.children).map SceneNode.id).Nodup)
    (hPage : (preorderL doc.children).length ≤ cfg.pageSize)
    (hBudget : sizeBudgetL cfg (preorderL doc.children) < effectiveBudget cfg) :
    (streamNodes cfg freshProc doc none).1.nodes =
      (preorderL doc.children).map (transformNode cfg) := by
  rw [streamNodes_nodes_eq]
  have hskip : applyCursorSkip none (doc.children.map (fun n => (n, 0))) =
      doc.children.map (fun n => (n, 0)) := rfl
  rw [hskip]
  have key := streamLoop_preorder cfg hTy hDep
    (queueWeight (doc.children.map (fun n => (n, 0))))
    (doc.children.map (fun n => (n, 0))) [] freshProc le_rfl
  rw [map_fst_seed] at key
  rw [key hNodup (by intro m _ hm; simp [freshProc] at hm)
    (by simpa using hPage) (by simpa [freshProc] using hBudget)]
  simp

theorem claim3_preorder_traversal_witness :
    (streamNodes c3cfg freshProc c3doc none).1.nodes =
      (preorderL c3doc.children).map (transformNode c3cfg) :=
  claim3_preorder_traversal c3cfg c3doc rfl rfl (by decide) (by decide)
    (by with_unfolding_all decide)

set_option maxRecDepth 10000 in
/-- C4: three top-level FRAME nodes, `pageSize = 2`, effectively unbounded
budget — the first cursor-less call returns the first two nodes with
`hasMore = true` and `nextCursor = "2"` (the count of admitted nodes so far
in the instance); the second call on the same engine instance with cursor
`"2"` returns the remaining node with `hasMore = false` and no cursor. -/
theorem claim4_pagination_scenario :
    c4call1.1.nodes.map SceneNode.id = ["1:1", "1:2"]
    ∧ c4call1.1.hasMore = true
    ∧ c4call1.1.nextCursor = some "2"
    ∧ c4call2.1.nodes.map SceneNode.id = ["1:3"]
    ∧ c4call2.1.hasMore = false
    ∧ c4call2.1.nextCursor = none := by
  with_unfolding_all decide

/-- C5 counterexample: a document whose single candidate TEXT node's
estimated size alone exceeds the configured budget.  The traversal does
return 0 nodes with `memoryUsage = 0` and no error, but — contrary to the
claim — `hasMore` is `false`: the loop pops the node before the size check,
so the rejected node is consumed from the queue rather than remaining in
it. -/
theorem claim5_counterexample :
    effectiveBudget c5cfg < estimateNodeSize c5node
    ∧ (streamNodes c5cfg freshProc c5doc none).1.nodes.length = 0
    ∧ (streamNodes c5cfg freshProc c5doc none).1.memoryUsage = 0
    ∧ (streamNodes c5cfg freshProc c5doc none).1.hasMore = false := by
  with_unfolding_all decide

/-- C5 amended: for a document whose single candidate node's estimated size
alone exceeds the configured budget (and `pageSize ≥ 1`), the traversal
returns an empty-but-valid result with 0 nodes, `memoryUsage = 0`, *no*
`nextCursor` and `hasMore = false` — it does not raise an error, but the
oversized node is consumed from the queue, not retained for a later call. -/
theorem claim5_amended (cfg : ChunkConfig) (node : SceneNode)
    (hps : 1 ≤ cfg.pageSize) (hch : node.hasChildren = false)
    (hover : effectiveBudget cfg < estimateNodeSize node) :
    streamNodes cfg freshProc ⟨[node]⟩ none =
      ({ nodes := [], memoryUsage := 0, nextCursor := none, hasMore := false },
       freshProc) := by
  have hs : shouldProcessNode cfg freshProc node 0 = false := by
    apply shouldProcess_false_of_over
    show effectiveBudget cfg < freshProc.currentSize + estimateNodeSize node
    simpa [freshProc] using hover
  have hce : childEntries node 0 = [] := by
    simp [childEntries, childrenOf, hch]
  have hloop : streamLoop cfg [(node, 0)] [] freshProc = ([], freshProc, []) := by
    rw [streamLoop_cons, if_pos (show ([] : List SceneNode).length < cfg.pageSize by
      simpa using hps)]
    rw [processNode_of_not cfg freshProc node 0 hs, hce]
    by_cases hl : hasReachedLimit cfg freshProc = true
    · rw [if_pos hl]
      rfl
    · rw [if_neg hl]
      show streamLoop cfg [] [] freshProc = ([], freshProc, [])
      rw [streamLoop_nil]
  have hsn : streamNodes cfg freshProc ⟨[node]⟩ none =
      ({ nodes := (streamLoop cfg [(node, 0)] [] freshProc).1,
         memoryUsage := (streamLoop cfg [(node, 0)] [] freshProc).2.1.currentSize,
         nextCursor := if 0 < (streamLoop cfg [(node, 0)] [] freshProc).2.2.length
           then some (toString
             (streamLoop cfg [(node, 0)] [] freshProc).2.1.processedNodes.length)
           else none,
         hasMore := decide
           (0 < (streamLoop cfg [(node, 0)] [] freshProc).2.2.length) },
       (streamLoop cfg [(node, 0)] [] freshProc).2.1) := rfl
  rw [hsn, hloop]
  rfl

theorem claim5_amended_witness :
    streamNodes c5cfg freshProc ⟨[c5node]⟩ none =
      ({ nodes := [], memoryUsage := 0, nextCursor := none, hasMore := false },
       freshProc) :=
  claim5_amended c5cfg c5node (by decide) (by decide)
    (by with_unfolding_all decide)

/-- C6 (code behavior at the failing input): the non-numeric cursor
`"abc"` parses to `NaN` (`parseIntDec` = `none`); since `NaN > 0` is false
the skip loop never runs, and the traversal silently proceeds from the
beginning, returning the same normal, error-free page as the cursor-less
call — it is *not* rejected as an invalid cursor, contrary to the spec's
required fatal `InvalidCursor` error. -/
theorem claim6_code_behavior :
    parseIntDec "abc" = none
    ∧ (streamNodes c6cfg freshProc c6doc (some "abc")).1.nodes.map SceneNode.id
        = ["6:1"]
    ∧ (streamNodes c6cfg freshProc c6doc (some "abc")).1.hasMore = false
    ∧ (streamNodes c6cfg freshProc c6doc (some "abc")).1.nextCursor = none
    ∧ (streamNodes c6cfg freshProc c6doc (some "abc")).1.nodes.map SceneNode.id
        = (streamNodes c6cfg freshProc c6doc none).1.nodes.map SceneNode.id := by
  with_unfolding_all decide

/-- C7 counterexample: with both budgets given and
`maxMemoryMB < maxResponseSize`, the smaller of the two is `maxMemoryMB`,
yet the effective budget is `maxResponseSize`: the admission check admits a
node whose size exceeds the smaller budget, and the stop condition is not
triggered at the smaller budget — so the governing budget is *not* the
smaller of the two values. -/
theorem claim7_counterexample :
    c7cfg.maxResponseSize = some 1
    ∧ c7cfg.maxMemoryMB < 1
    ∧ effectiveBudget c7cfg = 1
    ∧ effectiveBudget c7cfg ≠ c7cfg.maxMemoryMB
    ∧ shouldProcessNode c7cfg freshProc c7node 0 = true
    ∧ c7cfg.maxMemoryMB < freshProc.currentSize + estimateNodeSize c7node
    ∧ hasReachedLimit c7cfg ⟨[], c7cfg.maxMemoryMB⟩ = false := by
  with_unfolding_all decide

/-- C7 amended: when `maxResponseSize` is given and nonzero (truthy), it —
not the smaller of the two budgets — is the effective budget used by both
the admission size check and the stop condition; `maxMemoryMB` is only the
fallback when `maxResponseSize` is absent or zero.  (Under the constructor
defaults, 50 and 512, the two notions coincide.) -/
theorem claim7_amended (cfg : ChunkConfig) (st : Proc) (n : SceneNode)
    (d : Nat) (r : ℚ) (hr : cfg.maxResponseSize = some r) (hr0 : r ≠ 0) :
    effectiveBudget cfg = r
    ∧ (hasReachedLimit cfg st = true ↔ r ≤ st.currentSize)
    ∧ (shouldProcessNode cfg st n d = true →
        st.currentSize + estimateNodeSize n ≤ r)
    ∧ (r < st.currentSize + estimateNodeSize n →
        shouldProcessNode cfg st n d = false) := by
  have hB : effectiveBudget cfg = r := by
    simp [effectiveBudget, hr, hr0]
  refine ⟨hB, ?_, ?_, ?_⟩
  · simp [hasReachedLimit, hB, ge_iff_le]
  · intro h
    have := shouldProcess_size_le cfg st n d h
    rwa [hB] at this
  · intro h
    exact shouldProcess_false_of_over cfg st n d (by rwa [hB])

theorem claim7_amended_witness :
    effectiveBudget c7cfg = 1 :=
  (claim7_amended c7cfg freshProc c7node 0 1 rfl (by decide)).1

/-- C8 counterexample: on one client, node `A1` is admitted by the first
call; the second call on the *same* client passes a config override
(`pageSize := 5`), which makes `getFileInfoChunked` recreate the node
processor with an empty dedup set — and `A1` is admitted *again*,
contradicting the claim that an admitted id is skipped on every later
attempt regardless of config changes. -/
theorem claim8_counterexample :
    c8call1.1.nodes.map SceneNode.id = ["A1"]
    ∧ c8call2.1.nodes.map SceneNode.id = ["A1"] := by
  with_unfolding_all decide

/-- C8 amended: the dedup holds per `StreamingNodeProcessor` lifetime — a
node id recorded in the processor state is never admitted again by any
later traversal run on that same processor state, whatever config that
traversal uses; and across `getFileInfoChunked` calls the guarantee holds
exactly when no config override is passed (an override recreates the
processor, clearing the dedup set, as `claim8_counterexample` shows). -/
theorem claim8_amended :
    (∀ (cfg : ChunkConfig) (st : Proc) (doc : DocumentNode)
        (cur : Option String) (i : String) (pn : SceneNode),
        i ∈ st.processedNodes →
        pn ∈ (streamNodes cfg st doc cur).1.nodes → pn.id ≠ i)
    ∧ (∀ (cs : ClientState) (doc : DocumentNode) (cur1 cur2 : Option String)
        (pn1 pn2 : SceneNode),
        pn1 ∈ (getFileInfoChunkedModel cs doc cur1 none).1.nodes →
        pn2 ∈ (getFileInfoChunkedModel
                (getFileInfoChunkedModel cs doc cur1 none).2 doc cur2 none).1.nodes →
        pn2.id ≠ pn1.id) := by
  have key : ∀ (cfg : ChunkConfig) (st : Proc) (doc : DocumentNode)
      (cur : Option String) (i : String) (pn : SceneNode),
      i ∈ st.processedNodes →
      pn ∈ (streamNodes cfg st doc cur).1.nodes → pn.id ≠ i := by
    intro cfg st doc cur i pn hi hpn heq
    rw [streamNodes_nodes_eq] at hpn
    rcases streamLoop_fresh cfg _ [] st pn hpn with h | h
    · exact absurd h (List.not_mem_nil pn)
    · exact h (heq ▸ hi)
  refine ⟨key, ?_⟩
  intro cs doc cur1 cur2 pn1 pn2 h1 h2
  have e1 : (getFileInfoChunkedModel cs doc cur1 none).1.nodes =
      (streamNodes cs.config cs.proc doc cur1).1.nodes := rfl
  have hmem : pn1.id ∈ (streamNodes cs.config cs.proc doc cur1).2.processedNodes := by
    rw [e1, streamNodes_nodes_eq] at h1
    rcases streamLoop_ids_processed cs.config _ [] cs.proc pn1 h1 with h | h
    · exact absurd h (List.not_mem_nil pn1)
    · rw [streamNodes_proc_eq]
      exact h
  exact key cs.config (streamNodes cs.config cs.proc doc cur1).2 doc cur2
    pn1.id pn2 hmem h2

theorem claim8_amended_witness :
    (transformNode c8cfg c8node).id ≠ "Z1" :=
  claim8_amended.1 c8cfg ⟨["Z1"], 0⟩ c8doc none "Z1" (transformNode c8cfg c8node)
    (by decide)
    (by
      have h : (streamNodes c8cfg ⟨["Z1"], 0⟩ c8doc none).1.nodes
          = [transformNode c8cfg c8node] := by
        with_unfolding_all rfl
      rw [h]
      exact List.mem_singleton.2 rfl)

/-- C9: the cursor fast-forward only discards entries from the initially
seeded queue (the skipped-to queue is a suffix of the seeded queue — no
children are discovered during the skip phase); consequently, for every
cursor whose numeric value is at least the number of top-level children,
the traversal returns an empty node list with `hasMore = false` and no
`nextCursor`, without error, whatever descendants the skipped nodes have. -/
theorem claim9_cursor_fastforward :
    (∀ (cursor : Option String) (q : List QEntry),
        List.IsSuffix (applyCursorSkip cursor q) q)
    ∧ (∀ (cfg : ChunkConfig) (st : Proc) (doc : DocumentNode) (c : String)
        (k : Int), parseIntDec c = some k →
        (doc.children.length : Int) ≤ k →
        streamNodes cfg st doc (some c) =
          ({ nodes := [], memoryUsage := st.currentSize, nextCursor := none,
             hasMore := false }, st)) := by
  constructor
  · intro cursor q
    cases cursor with
    | none => exact List.drop_suffix 0 q
    | some c =>
      by_cases hc : c = ""
      · subst hc
        exact List.drop_suffix 0 q
      · simp only [applyCursorSkip, if_neg hc]
        rcases hpk : parseIntDec c with _ | k
        · exact List.suffix_rfl
        · exact List.drop_suffix _ _
  · intro cfg st doc c k hp hk
    have hne : c ≠ "" := by
      intro h
      rw [h] at hp
      exact Option.noConfusion hp
    have hskip : applyCursorSkip (some c) (doc.children.map (fun n => (n, 0))) = [] := by
      simp only [applyCursorSkip, if_neg hne, hp]
      apply List.drop_eq_nil_of_le
      rw [List.length_map]
      omega
    have hsn : streamNodes cfg st doc (some c) =
        ({ nodes := (streamLoop cfg
              (applyCursorSkip (some c) (doc.children.map (fun n => (n, 0)))) [] st).1,
           memoryUsage := (streamLoop cfg
              (applyCursorSkip (some c) (doc.children.map (fun n => (n, 0)))) [] st).2.1.currentSize,
           nextCursor := if 0 < (streamLoop cfg
              (applyCursorSkip (some c) (doc.children.map (fun n => (n, 0)))) [] st).2.2.length
             then some (toString (streamLoop cfg
              (applyCursorSkip (some c) (doc.children.map (fun n => (n, 0)))) [] st).2.1.processedNodes.length)
             else none,
           hasMore := decide (0 < (streamLoop cfg
              (applyCursorSkip (some c) (doc.children.map (fun n => (n, 0)))) [] st).2.2.length) },
         (streamLoop cfg
            (applyCursorSkip (some c) (doc.children.map (fun n => (n, 0)))) [] st).2.1) := rfl
    rw [hsn, hskip, streamLoop_nil]
    rfl

theorem claim9_cursor_fastforward_witness :
    streamNodes c9cfg freshProc c9doc (some "5") =
      ({ nodes := [], memoryUsage := freshProc.currentSize, nextCursor := none,
         hasMore := false }, freshProc) :=
  claim9_cursor_fastforward.2 c9cfg freshProc c9doc "5" 5 (by decide) (by decide)

/-- C10: a node rejected by `processNode` (dedup, type, depth or size
check) still has its children pushed onto the front of the queue and
evaluated — the loop step is the same as if the rejected node were replaced
by its child entries; consequently the type allow-list does not prune
subtrees: concretely, with allow-list `["TEXT"]`, the `TEXT` child of a
`GROUP` node (whose type is not allowed) is admitted and appears in
`result.nodes`. -/
theorem claim10_skip_keeps_children :
    (∀ (cfg : ChunkConfig) (st : Proc) (n : SceneNode) (d : Nat)
        (rest : List QEntry) (res : List SceneNode),
        res.length < cfg.pageSize →
        (processNode cfg st n d).1 = none →
        hasReachedLimit cfg st = false →
        streamLoop cfg ((n, d) :: rest) res st =
          streamLoop cfg (childEntries n d ++ rest) res st)
    ∧ ((streamNodes c10cfg freshProc c10doc none).1.nodes.map SceneNode.id = ["T1"]
       ∧ c10cfg.nodeTypes = some ["TEXT"]
       ∧ c10grp.ty ∉ ["TEXT"]
       ∧ c10doc.children = [c10grp]
       ∧ c10grp.children.map SceneNode.id = ["T1"]) := by
  constructor
  · intro cfg st n d rest res hpage hnone hlim
    have hpn := processNode_none_eq cfg st n d hnone
    rw [streamLoop_cons, if_pos hpage, hpn]
    rw [show ((none, st) : Option SceneNode × Proc).2 = st from rfl, hlim]
    simp only [Bool.false_eq_true, if_false]
    rfl
  · constructor
    · with_unfolding_all decide
    · refine ⟨rfl, by decide, rfl, by decide⟩

theorem claim10_skip_keeps_children_witness :
    streamLoop c10cfg [(c10grp, 0)] [] freshProc =
      streamLoop c10cfg (childEntries c10grp 0) [] freshProc :=
  claim10_skip_keeps_children.1 c10cfg freshProc c10grp 0 [] []
    (by decide) (by with_unfolding_all rfl) (by with_unfolding_all rfl)
